import Mathlib

/-!
Verification of the Algorithmic-Trading backtester core against its
specification.  The Python sources are shallowly embedded below:

* `scripts/strategies/SMA.py` (`SMAStrategy.generate_signals` and
  `SMAStrategy.generate_positions`),
* `scripts/strategies/PairsTrading.py` (`PairsTrading.generate_signals`,
  `PairsTrading.generate_positions`),
* `scripts/src/Strategy.py` (`Strategy.run`, `Strategy.evaluate`).

Python floats are modelled by exact rationals; pandas NaN values are modelled
with `Option` (a missing value) or with explicit `nanv` constructors of the
small float-value types `FV` and `SpV`; expressions whose exact value involves
a square root, a logarithm, or a real power are carried symbolically by
dedicated constructors (the claims settled here never depend on those exact
real values, only on which expression the code builds and on NaN propagation).
-/

namespace AlgoTrading

/-! ### SMAStrategy.generate_signals - moving averages and entry columns

`self.signals['short_mavg'] = self.data['Close'].rolling(window=w,
min_periods=1).mean()` takes, at row `t`, the mean of the last `min (w, t+1)`
closes (an expanding window while fewer than `w` observations exist). -/

/-- Trailing simple moving average with window `w` and `min_periods=1`,
evaluated at row `t` of the close series `c`. -/
def smavF (c : List ℚ) (w t : ℕ) : ℚ :=
  let win := (c.take (t + 1)).drop (t + 1 - w)
  win.sum / win.length

/-- Column `long` before differencing: `np.where(short_mavg > long_mavg, 1, 0)`
assigned on rows `index[short_window:]`, rows before `short_window` keep the
initial 0. -/
def longcolF (c : List ℚ) (sw lw t : ℕ) : ℤ :=
  if sw ≤ t ∧ smavF c lw t < smavF c sw t then 1 else 0

/-- Column `short` before differencing: `np.where(short_mavg < long_mavg, -1, 0)`
assigned on rows `index[short_window:]` (the slice uses `short_window` in the
source for this column as well). -/
def shortcolF (c : List ℚ) (sw lw t : ℕ) : ℤ :=
  if sw ≤ t ∧ smavF c sw t < smavF c lw t then -1 else 0

/-- Value of the diffed `positions` column at a row `t ≥ 1`:
`long.diff() + short.diff()`. -/
def posColF (c : List ℚ) (sw lw t : ℕ) : ℤ :=
  (longcolF c sw lw t - longcolF c sw lw (t - 1))
    + (shortcolF c sw lw t - shortcolF c sw lw (t - 1))

/-- The `positions` column including the `diff()` NaN at row 0 (`none`). -/
def posColO (c : List ℚ) (sw lw t : ℕ) : Option ℤ :=
  if t = 0 then none else some (posColF c sw lw t)

/-- Boolean `self.signals['short'].ne(0)` at row `t` (a NaN at row 0 compares
not-equal to 0 in pandas, hence `true`). -/
def shortDiffNe (c : List ℚ) (sw lw t : ℕ) : Bool :=
  if t = 0 then true
  else decide (shortcolF c sw lw t - shortcolF c sw lw (t - 1) ≠ 0)

/-- Boolean `self.signals['long'].ne(0)` at row `t`. -/
def longDiffNe (c : List ℚ) (sw lw t : ℕ) : Bool :=
  if t = 0 then true
  else decide (longcolF c sw lw t - longcolF c sw lw (t - 1) ≠ 0)

/-- `mask.loc[start:].idxmax()`: the first row in `[start, n)` where `p` holds;
on an all-False mask pandas `idxmax` returns the first label of the slice,
i.e. `start`. -/
def firstFrom (start n : ℕ) (p : ℕ → Bool) : ℕ :=
  ((List.range' start (n - start)).find? p).getD start

/-- One iteration of the exit loop of `SMAStrategy.generate_signals`: given
the accumulated `exit` column and an entry row `e`, place the exit marker.
For a long entry the target row is the first row at/after `e` whose close
exceeds `entry_price * 1.01` or drops below `entry_price * 0.995`; the
"next short signal" is searched from that target row onward, and the exit
moves there only if it is strictly earlier (the comparison in the source). -/
def applyEntry (c : List ℚ) (sw lw : ℕ) (ex : List ℤ) (e : ℕ) : List ℤ :=
  match posColO c sw lw e with
  | some 1 =>
      let p := c.getD e 0
      let tgt := firstFrom e c.length (fun i =>
        decide (p * (101 / 100) < c.getD i 0) || decide (c.getD i 0 < p * (995 / 1000)))
      let ns := firstFrom tgt c.length (fun i => shortDiffNe c sw lw i)
      let fin := if ns < tgt then ns else tgt
      ex.set fin 1
  | some (-1) =>
      let p := c.getD e 0
      let tgt := firstFrom e c.length (fun i =>
        decide (p * (1005 / 1000) < c.getD i 0) || decide (c.getD i 0 < p * (99 / 100)))
      let nl := firstFrom tgt c.length (fun i => longDiffNe c sw lw i)
      let fin := if nl < tgt then nl else tgt
      ex.set fin 1
  | _ => ex

/-- Rows of the `entries` list: rows whose `positions` value is not 0 (the
NaN at row 0 also compares not-equal to 0 and is listed, then skipped by the
loop body since NaN matches neither 1 nor -1). -/
def entrySteps (c : List ℚ) (sw lw : ℕ) : List ℕ :=
  (List.range c.length).filter (fun t => decide (posColO c sw lw t ≠ some 0))

/-- The `exit` column produced by the loop of `SMAStrategy.generate_signals`. -/
def exitColF (c : List ℚ) (sw lw : ℕ) : List ℤ :=
  (entrySteps c sw lw).foldl (applyEntry c sw lw) (List.replicate c.length 0)

/-! ### SMAStrategy.generate_positions

The loop `for i in range(1, len(self.signals))` touches, at each row `i`, only
the `(assets[0], position)` and `(assets[0], order_size)` cells of row `i`;
distinct iterations touch distinct rows, so the loop is a per-row map over
rows `1 ≤ i < len(signals)` of the first asset column pair.  The positions
table is asset-major: one list of `(position, order_size)` rows per asset,
zero-initialised by `Strategy.__init__`. -/

/-- Body of one loop iteration of `SMAStrategy.generate_positions` on the
first asset cell of row `i` (`pc` is the `positions` signal at `i`, `ex` the
`exit` signal; entries use `+=`/`-=` on the position cell). -/
def smaPosStep (s : ℚ) (pc : Option ℤ) (ex : ℤ) (row : ℚ × ℚ) : ℚ × ℚ :=
  if pc = some 1 then (row.1 + s, s)
  else if pc = some (-1) then (row.1 - s, -s)
  else if ex = 1 then (0, 0)
  else row

/-- Effect of `SMAStrategy.generate_positions` on the first asset column:
rows `1 ≤ i < len(signals)` are rewritten by `smaPosStep`, row 0 (and any row
beyond the signals index) is untouched. -/
def smaPosAsset (s : ℚ) (pc : List (Option ℤ)) (ex : List ℤ)
    (a : List (ℚ × ℚ)) : List (ℚ × ℚ) :=
  (List.range a.length).map (fun i =>
    if 1 ≤ i ∧ i < pc.length then
      smaPosStep s (pc.getD i none) (ex.getD i 0) (a.getD i (0, 0))
    else a.getD i (0, 0))

/-- `SMAStrategy.generate_positions` over the whole asset-major table: only
the first asset (`self.assets[0]`) is written, every other asset column is
returned unchanged. -/
def smaGenPositions (s : ℚ) (pc : List (Option ℤ)) (ex : List ℤ)
    (p : List (List (ℚ × ℚ))) : List (List (ℚ × ℚ)) :=
  match p with
  | [] => []
  | a :: rest => smaPosAsset s pc ex a :: rest

/-- The positions table as `Strategy.__init__` creates it: for each of `na`
assets, `n` rows of `(position, order_size) = (0.0, 0.0)`. -/
def zeroPositionsTable (na n : ℕ) : List (List (ℚ × ℚ)) :=
  List.replicate na (List.replicate n ((0 : ℚ), (0 : ℚ)))

/-! ### Strategy.run - the simulation pass

Per step `i ≥ 1` the source first copies `cash[i] ← cash[i-1]`, then loops
over the assets; inside the asset loop it accumulates
`pnl[i] += position[asset][i-1] * (close[asset][i] − close[asset][i-1])`
and, still inside the loop, `cash[i] += pnl[i]` — i.e. cash accrues the
running per-asset prefix sums of pnl, not the final pnl once. -/

/-- The inner asset loop of one simulation step.  Input: per asset the pair
`(position at i-1, close[i] − close[i-1])`; output: `(pnl[i], total amount
added to cash[i])`. -/
def pnlCashStep (l : List (ℚ × ℚ)) : ℚ × ℚ :=
  l.foldl (fun acc pd => (acc.1 + pd.1 * pd.2, acc.2 + (acc.1 + pd.1 * pd.2))) (0, 0)

/-- Per-asset inputs of simulation step `i`: `closes` and `pos` are
asset-major (one list per asset, same order). -/
def stepInputs (closes : List (List ℚ)) (pos : List (List (ℚ × ℚ))) (i : ℕ) :
    List (ℚ × ℚ) :=
  (closes.zip pos).map (fun cp =>
    ((cp.2.getD (i - 1) (0, 0)).1, cp.1.getD i 0 - cp.1.getD (i - 1) 0))

/-- The `pnl` column written by `Strategy.run` (row 0 keeps the initial 0.0). -/
def eqPnlF (closes : List (List ℚ)) (pos : List (List (ℚ × ℚ))) : ℕ → ℚ
  | 0 => 0
  | i + 1 => (pnlCashStep (stepInputs closes pos (i + 1))).1

/-- The `cash` column written by `Strategy.run` (row 0 keeps `init_cash`). -/
def eqCashF (closes : List (List ℚ)) (pos : List (List (ℚ × ℚ))) (init : ℚ) :
    ℕ → ℚ
  | 0 => init
  | i + 1 => eqCashF closes pos init i + (pnlCashStep (stepInputs closes pos (i + 1))).2

/-- The `(cash, pnl)` table after the simulation pass over `n` rows. -/
def equityTable (closes : List (List ℚ)) (pos : List (List (ℚ × ℚ)))
    (init : ℚ) (n : ℕ) : List (ℚ × ℚ) :=
  (List.range n).map (fun i => (eqCashF closes pos init i, eqPnlF closes pos i))

/-- The `returns` column: `cash.pct_change(fill_method=None)` with row 0 then
set to 0.0.  A zero previous cash makes the float quotient non-finite; that
is modelled as a missing value. -/
def pctChange (cash : List ℚ) : List (Option ℚ) :=
  (List.range cash.length).map (fun t =>
    if t = 0 then some 0
    else if cash.getD (t - 1) 0 = 0 then none
    else some (cash.getD t 0 / cash.getD (t - 1) 0 - 1))

/-! ### Strategy.evaluate - float values and statistics

Metric values of `Strategy.evaluate`.  `fv a r` stands for the real number
`a * sqrt r` (every exact value of the metrics below has that shape, with
`r ≥ 0`); `powv cl c0 e` stands for `100 * ((cl / c0) ** e - 1)` (the yearly
return, carried symbolically); `nanv`, `pinf`, `ninf` are the IEEE NaN and
signed infinities that numpy/pandas produce instead of raising. -/
inductive FV where
  | fv : ℚ → ℚ → FV
  | powv : ℚ → ℚ → ℚ → FV
  | nanv : FV
  | pinf : FV
  | ninf : FV
deriving DecidableEq

/-- Float multiplication on the representable shapes:
`(a*sqrt r) * (b*sqrt s) = (a*b) * sqrt (r*s)` for `r, s ≥ 0`; NaN propagates;
an infinity times zero is NaN, otherwise it keeps the product sign. -/
def mulF : FV → FV → FV
  | FV.fv a r, FV.fv b s => FV.fv (a * b) (r * s)
  | FV.pinf, FV.fv b s => if b = 0 ∨ s = 0 then FV.nanv else if 0 < b then FV.pinf else FV.ninf
  | FV.ninf, FV.fv b s => if b = 0 ∨ s = 0 then FV.nanv else if 0 < b then FV.ninf else FV.pinf
  | FV.fv a r, FV.pinf => if a = 0 ∨ r = 0 then FV.nanv else if 0 < a then FV.pinf else FV.ninf
  | FV.fv a r, FV.ninf => if a = 0 ∨ r = 0 then FV.nanv else if 0 < a then FV.ninf else FV.pinf
  | FV.pinf, FV.pinf => FV.pinf
  | FV.ninf, FV.ninf => FV.pinf
  | FV.pinf, FV.ninf => FV.ninf
  | FV.ninf, FV.pinf => FV.ninf
  | _, _ => FV.nanv

/-- Float division on the representable shapes: division by an exact zero
yields NaN on a zero numerator and a signed infinity otherwise (the IEEE
behaviour numpy warns about but does not raise on); NaN propagates;
a finite number over an infinity is a signed zero, two infinities give NaN. -/
def divF : FV → FV → FV
  | FV.fv a r, FV.fv b s =>
      if b = 0 ∨ s = 0 then
        if a = 0 ∨ r = 0 then FV.nanv
        else if 0 < a then FV.pinf else FV.ninf
      else FV.fv (a / b) (r / s)
  | FV.pinf, FV.fv b s => if b = 0 ∨ s = 0 then FV.pinf else if 0 < b then FV.pinf else FV.ninf
  | FV.ninf, FV.fv b s => if b = 0 ∨ s = 0 then FV.ninf else if 0 < b then FV.ninf else FV.pinf
  | FV.fv _ _, FV.pinf => FV.fv 0 1
  | FV.fv _ _, FV.ninf => FV.fv 0 1
  | _, _ => FV.nanv

/-- `Series.mean()` over a float column without missing values: NaN on an
empty column, otherwise the exact mean. -/
def meanQ (l : List ℚ) : FV :=
  if l.isEmpty then FV.nanv else FV.fv (l.sum / l.length) 1

/-- The sample variance (`ddof=1`, the pandas default) of a list. -/
def svarQ (l : List ℚ) : ℚ :=
  let m := l.sum / l.length
  (l.map (fun x => (x - m) ^ 2)).sum / ((l.length : ℚ) - 1)

/-- `Series.std()` (`ddof=1`): NaN when fewer than two observations,
otherwise `sqrt` of the sample variance, i.e. `fv 1 (svarQ l)`. -/
def stdQ (l : List ℚ) : FV :=
  if l.length ≤ 1 then FV.nanv else FV.fv 1 (svarQ l)

/-- `Series.mean()` over a column with missing values: pandas skips NaN, and
returns NaN when no observation remains. -/
def meanO (l : List (Option ℚ)) : FV := meanQ (l.filterMap id)

/-- `Series.std()` over a column with missing values. -/
def stdO (l : List (Option ℚ)) : FV := stdQ (l.filterMap id)

/-- Boolean-mask selection `series[mask]` (pandas aligns by position here:
both series share the index). -/
def maskList (l : List (Option ℚ)) (m : List Bool) : List (Option ℚ) :=
  (l.zip m).filterMap (fun rm => if rm.2 then some rm.1 else none)

/-- The `invested_idx` mask of `Strategy.evaluate`: per row, whether any
asset holds a nonzero `position`. -/
def investedMask (pos : List (List (ℚ × ℚ))) (n : ℕ) : List Bool :=
  (List.range n).map (fun t => pos.any (fun a => decide ((a.getD t (0, 0)).1 ≠ 0)))

/-- The metrics dictionary built by `Strategy.evaluate`, one field per key
the method actually assigns. -/
structure EvalMetrics where
  sharpe : FV
  maxdd : FV
  yearly : FV
  annvol : FV
  avgret : FV
  avgwin : FV
  winrate : FV
  lossrate : FV
  ntrades : FV
deriving DecidableEq

/-- Running maximum (`Series.cummax()`) continuing from `m`. -/
def cummaxFrom (m : ℚ) : List ℚ → List ℚ
  | [] => []
  | b :: r => max m b :: cummaxFrom (max m b) r

/-- `Series.cummax()`. -/
def cummaxList : List ℚ → List ℚ
  | [] => []
  | a :: r => a :: cummaxFrom a r

/-- `Series.min()` as an `Option` (empty series has no minimum). -/
def listMin : List ℚ → Option ℚ
  | [] => none
  | a :: r => some (r.foldl min a)

/-- `Series.max()` as an `Option`. -/
def listMax : List ℚ → Option ℚ
  | [] => none
  | a :: r => some (r.foldl max a)

/-- `Strategy.evaluate`: `pos` is the asset-major positions table, `eqt` the
`(cash, pnl)` rows, `ret` the `returns` column (all sharing one index of
length `eqt.length`, as in the source where all tables share `data.index`).
On an empty table the source would raise `IndexError` at `iloc[-1]`; the
empty match arms below return NaN instead, and every claim below constrains
the input to be nonempty. -/
def evaluate (pos : List (List (ℚ × ℚ))) (eqt : List (ℚ × ℚ))
    (ret : List (Option ℚ)) : EvalMetrics :=
  let n := eqt.length
  let cash := eqt.map (fun r => r.1)
  let pnl := eqt.map (fun r => r.2)
  let inv := maskList ret (investedMask pos n)
  { sharpe := divF (mulF (FV.fv 1 n) (meanQ pnl)) (stdQ pnl)
    maxdd :=
      match listMin ((cash.zip (cummaxList cash)).map (fun p => p.1 - p.2)),
          listMax (cummaxList cash) with
      | some m, some mx => divF (FV.fv (100 * m) 1) (FV.fv mx 1)
      | _, _ => FV.nanv
    yearly :=
      match cash.head?, cash.getLast? with
      | some c0, some cl => FV.powv cl c0 (252 / (n : ℚ))
      | _, _ => FV.nanv
    annvol := mulF (stdO inv) (FV.fv 1 252)
    avgret := meanO inv
    avgwin := meanQ ((inv.filterMap id).filter (fun q => decide (0 < q)))
    winrate :=
      if inv.isEmpty then FV.nanv
      else FV.fv ((inv.countP (fun o => o.elim false (fun q => decide (0 < q)))) /
        (inv.length : ℚ)) 1
    lossrate :=
      if inv.isEmpty then FV.nanv
      else FV.fv ((inv.countP (fun o => o.elim false (fun q => decide (q < 0)))) /
        (inv.length : ℚ)) 1
    ntrades := FV.fv ((pos.map (fun a => a.countP (fun r => decide (r.2 ≠ 0)))).sum : ℕ) 1 }

/-- The keys of `self.metrics` in assignment order, paired with the values;
this is the mapping `Strategy.evaluate` leaves behind. -/
def metricsList (m : EvalMetrics) : List (String × FV) :=
  [("sharpe_ratio", m.sharpe), ("max_drawdown", m.maxdd),
   ("yearly_return", m.yearly), ("annualized_volatility", m.annvol),
   ("average_return", m.avgret), ("average_win", m.avgwin),
   ("win_rate", m.winrate), ("loss_rate", m.lossrate),
   ("number_of_trades", m.ntrades)]

/-! ### PairsTrading.generate_signals and generate_positions

`generate_signals` drops the rows where either close is missing, computes the
spread for the configured `spread_type`, writes it as the single signals
column `spread`, and raises `ValueError('Invalid spread type')` on any other
`spread_type`; no entry or exit column is ever produced.
`generate_positions` is an unfinished stub whose first statement references
the undefined name `index`, so calling it raises `NameError` before touching
the table. -/

/-- Spread values: `q x` is an exact value, `lnd a b` stands for
`ln a - ln b` with `a, b > 0`, `zv d v` stands for `d / sqrt v` with `v > 0`
(the z-score shape), and `nanv` / `pinf` / `ninf` are the floats numpy
produces on empty windows, zero denominators and non-positive logarithms. -/
inductive SpV where
  | q : ℚ → SpV
  | lnd : ℚ → ℚ → SpV
  | zv : ℚ → ℚ → SpV
  | nanv : SpV
  | pinf : SpV
  | ninf : SpV
deriving DecidableEq

/-- The OLS slope of `closeA` on `[const, closeB]`, the hedge ratio
`model.params.iloc[1]`: covariance over variance.  A zero variance of
`closeB` makes the design singular; statsmodels then answers through a
pseudo-inverse, which is not modelled (0 is returned) and never reached in
the claims below. -/
def olsSlope (a b : List ℚ) : ℚ :=
  let l := a.zip b
  let n : ℚ := l.length
  if n = 0 then 0
  else
    let ma := (l.map (fun p => p.1)).sum / n
    let mb := (l.map (fun p => p.2)).sum / n
    let sxx := (l.map (fun p => (p.2 - mb) ^ 2)).sum
    let sxy := (l.map (fun p => (p.2 - mb) * (p.1 - ma))).sum
    if sxx = 0 then 0 else sxy / sxx

/-- One value of the ratio spread `closeA / closeB` with float division
semantics at a zero denominator. -/
def ratioV (x y : ℚ) : SpV :=
  if y = 0 then (if x = 0 then SpV.nanv else if 0 < x then SpV.pinf else SpV.ninf)
  else SpV.q (x / y)

/-- One value of the log-difference spread `np.log a - np.log b`
(`log 0 = -inf`, `log` of a negative is NaN). -/
def logdV (x y : ℚ) : SpV :=
  if 0 < x ∧ 0 < y then SpV.lnd x y
  else if x = 0 ∧ 0 < y then SpV.ninf
  else if 0 < x ∧ y = 0 then SpV.pinf
  else SpV.nanv

/-- One value of the standardized z-score spread at row `t` of the raw
spread series: NaN while the trailing window of 20 is not full, else
`(raw[t] - mean20) / std20` with float semantics at a zero rolling std. -/
def zscoreAt (raw : List ℚ) (t : ℕ) : SpV :=
  if t + 1 < 20 then SpV.nanv
  else
    let win := (raw.take (t + 1)).drop (t + 1 - 20)
    let m := win.sum / win.length
    let v := svarQ win
    let d := raw.getD t 0 - m
    if v = 0 then (if d = 0 then SpV.nanv else if 0 < d then SpV.pinf else SpV.ninf)
    else SpV.zv d v

/-- `PairsTrading.generate_signals`: NA-filter the two close series, then
dispatch on `spread_type`; the only signals column written is `spread`, and
an unknown `spread_type` raises before any spread value is computed. -/
def pairsSignals (st : String) (cA cB : List (Option ℚ)) :
    Except String (List SpV) :=
  let kept := (cA.zip cB).filterMap (fun p =>
    match p.1, p.2 with
    | some x, some y => some (x, y)
    | _, _ => none)
  if st = "zscore" then
    let beta := olsSlope (kept.map (fun p => p.1)) (kept.map (fun p => p.2))
    let raw := kept.map (fun p => p.1 - beta * p.2)
    Except.ok ((List.range raw.length).map (fun t => zscoreAt raw t))
  else if st = "ratio" then
    Except.ok (kept.map (fun p => ratioV p.1 p.2))
  else if st = "log-difference" then
    Except.ok (kept.map (fun p => logdV p.1 p.2))
  else Except.error "Invalid spread type"

/-- `PairsTrading.generate_positions`: its first statement evaluates the
undefined name `index`, so Python raises `NameError` unconditionally and no
position is ever generated. -/
def pairsPositions : Except String (List (List (ℚ × ℚ))) :=
  Except.error "NameError: name index is not defined"

/-! ### Helper lemmas -/

theorem getD_map_range {α : Type} (f : ℕ → α) (n i : ℕ) (d : α) :
    ((List.range n).map f).getD i d = if i < n then f i else d := by
  by_cases h : i < n
  · rw [if_pos h, List.getD_eq_getElem _ _ (by simpa using h)]
    simp [h]
  · rw [if_neg h, List.getD_eq_default]
    simpa using Nat.le_of_not_lt h

theorem getD_replicate {α : Type} (x : α) (m i : ℕ) (d : α) :
    (List.replicate m x).getD i d = if i < m then x else d := by
  by_cases h : i < m
  · rw [if_pos h, List.getD_eq_getElem _ _ (by simpa using h)]
    simp
  · rw [if_neg h, List.getD_eq_default]
    simpa using Nat.le_of_not_lt h

theorem longcolF_cases (c : List ℚ) (sw lw t : ℕ) :
    longcolF c sw lw t = 0 ∨ longcolF c sw lw t = 1 := by
  unfold longcolF; split <;> simp

theorem shortcolF_cases (c : List ℚ) (sw lw t : ℕ) :
    shortcolF c sw lw t = 0 ∨ shortcolF c sw lw t = -1 := by
  unfold shortcolF; split <;> simp

theorem not_long_and_short (c : List ℚ) (sw lw t : ℕ) :
    ¬(longcolF c sw lw t = 1 ∧ shortcolF c sw lw t = -1) := by
  rintro ⟨h1, h2⟩
  unfold longcolF at h1
  unfold shortcolF at h2
  split at h1
  · split at h2
    · rename_i ha hb
      exact absurd hb.2 (not_lt_of_gt ha.2)
    · exact absurd h2 (by decide)
  · exact absurd h1 (by decide)

theorem colPair (c : List ℚ) (sw lw t : ℕ) :
    (longcolF c sw lw t = 0 ∧ shortcolF c sw lw t = 0) ∨
    (longcolF c sw lw t = 1 ∧ shortcolF c sw lw t = 0) ∨
    (longcolF c sw lw t = 0 ∧ shortcolF c sw lw t = -1) := by
  rcases longcolF_cases c sw lw t with h1 | h1 <;>
    rcases shortcolF_cases c sw lw t with h2 | h2
  · exact Or.inl ⟨h1, h2⟩
  · exact Or.inr (Or.inr ⟨h1, h2⟩)
  · exact Or.inr (Or.inl ⟨h1, h2⟩)
  · exact absurd ⟨h1, h2⟩ (not_long_and_short c sw lw t)

/-! ### Claim theorems -/

/-- Claim C1: the claim states that after `Strategy.run`, for every `t ≥ 1`,
`pnl[t] = Σ_asset position[asset][t-1] * (close[asset][t] - close[asset][t-1])`
and `cash[t] = cash[t-1] + pnl[t]`.  The pnl identity holds, but the cash
recurrence fails with two assets because the source adds the running pnl
prefix to cash inside the asset loop: with asset A holding position 1 while
its close moves 10 → 12 and asset B flat (close 5 → 5), the code yields
`pnl[1] = 2` but `cash[1] = 100000 + 4`, not `100000 + 2`. -/
theorem run_cash_adds_pnl_prefixes :
    eqPnlF [[10, 12], [5, 5]] [[(1, 1), (0, 0)], [(0, 0), (0, 0)]] 1 =
      1 * (12 - 10) + 0 * (5 - 5) ∧
    eqCashF [[10, 12], [5, 5]] [[(1, 1), (0, 0)], [(0, 0), (0, 0)]] 100000 0 = 100000 ∧
    eqCashF [[10, 12], [5, 5]] [[(1, 1), (0, 0)], [(0, 0), (0, 0)]] 100000 1 = 100004 ∧
    (100004 : ℚ) ≠ 100000 + (1 * (12 - 10) + 0 * (5 - 5)) := by
  norm_num [eqPnlF, eqCashF, pnlCashStep, stepInputs]

/-- Claim C2: the claim states the invariant
`position[t] = position[t-1] + order_size[t]` for the schedule produced by
`SMAStrategy.generate_positions`.  It fails: the source never carries the
previous position forward, each non-entry row keeps its initialised 0.
With order size 1 and signals giving an entry (+1) at row 1 and an exit at
row 2, the produced rows are `(1,1)` then `(0,0)`, and
`position[2] ≠ position[1] + order_size[2]`. -/
theorem sma_positions_not_cumulative :
    smaPosAsset 1 [none, some 1, some 0, some 0] [0, 0, 1, 0]
        (List.replicate 4 (0, 0)) = [(0, 0), (1, 1), (0, 0), (0, 0)] ∧
    ((smaPosAsset 1 [none, some 1, some 0, some 0] [0, 0, 1, 0]
        (List.replicate 4 (0, 0))).getD 2 (0, 0)).1 ≠
      ((smaPosAsset 1 [none, some 1, some 0, some 0] [0, 0, 1, 0]
        (List.replicate 4 (0, 0))).getD 1 (0, 0)).1 +
      ((smaPosAsset 1 [none, some 1, some 0, some 0] [0, 0, 1, 0]
        (List.replicate 4 (0, 0))).getD 2 (0, 0)).2 := by
  have h : smaPosAsset 1 [none, some 1, some 0, some 0] [0, 0, 1, 0]
      (List.replicate 4 (0, 0)) = [(0, 0), (1, 1), (0, 0), (0, 0)] := by
    norm_num [smaPosAsset, smaPosStep, List.range, List.range.loop]
  refine ⟨h, ?_⟩
  rw [h]
  norm_num

/-- Claim C3: the claim states that a short-entry event occurring strictly
before the computed target/stop exit step pre-empts the exit.  It does not:
the source searches for the next short signal starting at the computed exit
step (`loc[long_exit_idx:]`), so the pre-emption comparison
`next_short_signal < long_exit_idx` can never hold.  On closes
`[100, 100, 101, 100.9, 100.8, 102.5]` with windows 1 and 2 there is a long
entry at step 2 (price 101), a short signal at step 3, and the take-profit
target at step 5; the produced exit column marks step 5, not step 3. -/
theorem sma_exit_preemption_never_fires :
    posColO [100, 100, 101, 1009/10, 504/5, 205/2] 1 2 2 = some 1 ∧
    shortDiffNe [100, 100, 101, 1009/10, 504/5, 205/2] 1 2 3 = true ∧
    firstFrom 2 6 (fun i =>
      decide ((101 : ℚ) * (101 / 100) < [100, 100, 101, 1009/10, 504/5, 205/2].getD i 0) ||
      decide (([100, 100, 101, 1009/10, 504/5, 205/2].getD i 0 : ℚ) < 101 * (995 / 1000))) = 5 ∧
    exitColF [100, 100, 101, 1009/10, 504/5, 205/2] 1 2 = [0, 0, 0, 0, 0, 1] := by
  refine ⟨?_, ?_, ?_, ?_⟩
  · norm_num [posColO, posColF, longcolF, shortcolF, smavF]
  · norm_num [shortDiffNe, shortcolF, smavF]
  · norm_num [firstFrom, List.range', List.find?]
  · norm_num [exitColF, entrySteps, posColO, posColF, longcolF, shortcolF,
      smavF, List.filter, List.range, List.range.loop]
    simp only [reduceCtorEq, decide_False, Bool.not_false]
    norm_num [applyEntry, posColO, posColF, longcolF, shortcolF, smavF, firstFrom,
      shortDiffNe, List.range', List.find?, List.set]

/-- Claim C4 (counterexample): the claim states the `positions` column only
takes values in `{-1, 0, 1}` and equals +1 exactly at steps where the short
moving average crosses from `≤` to `>` the long one.  On closes
`[10, 5, 20]` with windows 1 and 2, step 2 is such a crossing
(`smav 1 ≤ lmav 1` and `smav 2 > lmav 2`) yet the column holds 2 there. -/
theorem sma_positions_value_two_at_cross :
    posColO [10, 5, 20] 1 2 2 = some 2 ∧
    smavF [10, 5, 20] 1 1 ≤ smavF [10, 5, 20] 2 1 ∧
    smavF [10, 5, 20] 2 2 < smavF [10, 5, 20] 1 2 ∧
    ¬((2 : ℤ) = -1 ∨ (2 : ℤ) = 0 ∨ (2 : ℤ) = 1) := by
  refine ⟨?_, ?_, ?_, by decide⟩
  · norm_num [posColO, posColF, longcolF, shortcolF, smavF]
  · norm_num [smavF]
  · norm_num [smavF]

/-- Claim C4 (amended): for every close series, windows and step `t ≥ 1`,
the `positions` column value lies in `[-2, 2]`; it is positive exactly when
the `long` indicator rises (0 to 1) or the `short` indicator recovers
(-1 to 0), negative symmetrically, and it equals 2 exactly when the short
average is strictly above at `t` (with `t` past the window offset) after
being strictly below at `t - 1` - i.e. the one-step strict cross that the
claim's `{-1, 0, 1}` range excludes. -/
theorem sma_positions_column_range (c : List ℚ) (sw lw t : ℕ) (_ht : 1 ≤ t) :
    (-2 ≤ posColF c sw lw t ∧ posColF c sw lw t ≤ 2) ∧
    (0 < posColF c sw lw t ↔
      (longcolF c sw lw t = 1 ∧ longcolF c sw lw (t - 1) = 0) ∨
      (shortcolF c sw lw (t - 1) = -1 ∧ shortcolF c sw lw t = 0)) ∧
    (posColF c sw lw t < 0 ↔
      (shortcolF c sw lw t = -1 ∧ shortcolF c sw lw (t - 1) = 0) ∨
      (longcolF c sw lw (t - 1) = 1 ∧ longcolF c sw lw t = 0)) ∧
    (posColF c sw lw t = 2 ↔
      longcolF c sw lw t = 1 ∧ shortcolF c sw lw (t - 1) = -1) := by
  unfold posColF
  rcases colPair c sw lw t with ⟨h1, h3⟩ | ⟨h1, h3⟩ | ⟨h1, h3⟩ <;>
    rcases colPair c sw lw (t - 1) with ⟨h2, h4⟩ | ⟨h2, h4⟩ | ⟨h2, h4⟩ <;>
    rw [h1, h2, h3, h4] <;> norm_num

/-- Claim C4 (amended, witness): the amended statement evaluated on the
counterexample closes at step 2. -/
theorem sma_positions_column_range_witness :
    1 ≤ 2 ∧
    ((-2 ≤ posColF [10, 5, 20] 1 2 2 ∧ posColF [10, 5, 20] 1 2 2 ≤ 2) ∧
    (0 < posColF [10, 5, 20] 1 2 2 ↔
      (longcolF [10, 5, 20] 1 2 2 = 1 ∧ longcolF [10, 5, 20] 1 2 1 = 0) ∨
      (shortcolF [10, 5, 20] 1 2 1 = -1 ∧ shortcolF [10, 5, 20] 1 2 2 = 0)) ∧
    (posColF [10, 5, 20] 1 2 2 < 0 ↔
      (shortcolF [10, 5, 20] 1 2 2 = -1 ∧ shortcolF [10, 5, 20] 1 2 1 = 0) ∨
      (longcolF [10, 5, 20] 1 2 1 = 1 ∧ longcolF [10, 5, 20] 1 2 2 = 0)) ∧
    (posColF [10, 5, 20] 1 2 2 = 2 ↔
      longcolF [10, 5, 20] 1 2 2 = 1 ∧ shortcolF [10, 5, 20] 1 2 1 = -1)) :=
  ⟨by norm_num, sma_positions_column_range [10, 5, 20] 1 2 2 (by norm_num)⟩

/-- Claim C5: the claim states that `PairsTrading.generate_signals` emits
short-A/long-B entry signals at upward threshold crossings of the spread and
flattening exits at mean-reversion crossings.  The source emits neither: the
only signals column it writes is `spread` (here the full signals output on a
ratio-spread input whose spread crosses a threshold of 2 upward between the
two steps), and `PairsTrading.generate_positions`, which would have to turn
signals into positions, raises `NameError` on the undefined name `index`
before touching the table. -/
theorem pairs_signals_only_spread :
    pairsSignals "ratio" [some 1, some 3] [some 1, some 1] =
      Except.ok [SpV.q 1, SpV.q 3] ∧
    (1 : ℚ) < 2 ∧ (2 : ℚ) < 3 ∧
    pairsPositions = Except.error "NameError: name index is not defined" := by
  refine ⟨?_, by norm_num, by norm_num, rfl⟩
  simp only [pairsSignals, List.filterMap]
  rw [if_neg (by decide)]
  norm_num [ratioV]

/-- Claim C6: for every `spread_type` outside
`{"zscore", "ratio", "log-difference"}` and every pair of close series,
`PairsTrading.generate_signals` fails with the configuration error
(`ValueError('Invalid spread type')` in the source) and produces no spread:
no silent default is used. -/
theorem pairs_invalid_spread_type (st : String) (cA cB : List (Option ℚ))
    (h1 : st ≠ "zscore") (h2 : st ≠ "ratio") (h3 : st ≠ "log-difference") :
    pairsSignals st cA cB = Except.error "Invalid spread type" := by
  simp only [pairsSignals]
  rw [if_neg h1, if_neg h2, if_neg h3]

/-- Claim C6 (witness): the invalid `spread_type` value `"spread"` on a
concrete pair of series. -/
theorem pairs_invalid_spread_type_witness :
    (("spread" : String) ≠ "zscore" ∧ ("spread" : String) ≠ "ratio" ∧
      ("spread" : String) ≠ "log-difference") ∧
    pairsSignals "spread" [some 1, some 3] [some 1, some 1] =
      Except.error "Invalid spread type" :=
  ⟨⟨by decide, by decide, by decide⟩,
    pairs_invalid_spread_type "spread" [some 1, some 3] [some 1, some 1]
      (by decide) (by decide) (by decide)⟩

/-- Claim C7: the claim states that `Strategy.evaluate` returns exactly the
metrics sharpe_ratio, max_drawdown, annualized_return, annualized_volatility,
calmar_ratio, sortino_ratio, average_return, average_win, average_loss,
win_rate, loss_rate, number_of_trades (also the list in the method's own
docstring).  The mapping actually assigned has nine keys: calmar_ratio,
sortino_ratio and average_loss are never computed, and the annualized return
is stored under the key yearly_return. -/
theorem evaluate_metric_keys (pos : List (List (ℚ × ℚ))) (eqt : List (ℚ × ℚ))
    (ret : List (Option ℚ)) (_h : eqt ≠ []) :
    (metricsList (evaluate pos eqt ret)).map Prod.fst =
      ["sharpe_ratio", "max_drawdown", "yearly_return", "annualized_volatility",
       "average_return", "average_win", "win_rate", "loss_rate",
       "number_of_trades"] ∧
    "annualized_return" ∉ (metricsList (evaluate pos eqt ret)).map Prod.fst ∧
    "calmar_ratio" ∉ (metricsList (evaluate pos eqt ret)).map Prod.fst ∧
    "sortino_ratio" ∉ (metricsList (evaluate pos eqt ret)).map Prod.fst ∧
    "average_loss" ∉ (metricsList (evaluate pos eqt ret)).map Prod.fst := by
  refine ⟨rfl, ?_, ?_, ?_, ?_⟩ <;> simp [metricsList]

/-- Claim C7 (witness): the metric keys on a concrete one-row table. -/
theorem evaluate_metric_keys_witness :
    ([((100000 : ℚ), (0 : ℚ))] ≠ ([] : List (ℚ × ℚ))) ∧
    ((metricsList (evaluate [[((0 : ℚ), (0 : ℚ))]] [((100000 : ℚ), (0 : ℚ))]
        [some 0])).map Prod.fst =
      ["sharpe_ratio", "max_drawdown", "yearly_return", "annualized_volatility",
       "average_return", "average_win", "win_rate", "loss_rate",
       "number_of_trades"] ∧
    "annualized_return" ∉ (metricsList (evaluate [[((0 : ℚ), (0 : ℚ))]]
        [((100000 : ℚ), (0 : ℚ))] [some 0])).map Prod.fst ∧
    "calmar_ratio" ∉ (metricsList (evaluate [[((0 : ℚ), (0 : ℚ))]]
        [((100000 : ℚ), (0 : ℚ))] [some 0])).map Prod.fst ∧
    "sortino_ratio" ∉ (metricsList (evaluate [[((0 : ℚ), (0 : ℚ))]]
        [((100000 : ℚ), (0 : ℚ))] [some 0])).map Prod.fst ∧
    "average_loss" ∉ (metricsList (evaluate [[((0 : ℚ), (0 : ℚ))]]
        [((100000 : ℚ), (0 : ℚ))] [some 0])).map Prod.fst) :=
  ⟨by simp,
    evaluate_metric_keys [[((0 : ℚ), (0 : ℚ))]] [((100000 : ℚ), (0 : ℚ))]
      [some 0] (by simp)⟩

theorem pnlCashStep_of_flat (l : List (ℚ × ℚ)) (h : ∀ p ∈ l, p.1 = 0) :
    pnlCashStep l = (0, 0) := by
  induction l with
  | nil => rfl
  | cons a tl ih =>
      have ha : a.1 = 0 := h a (List.mem_cons_self a tl)
      have step : pnlCashStep (a :: tl) = pnlCashStep tl := by
        simp [pnlCashStep, ha]
      rw [step]
      exact ih (fun p hp => h p (List.mem_cons_of_mem a hp))

theorem stepInputs_flat (closes : List (List ℚ)) (na n i : ℕ) :
    ∀ p ∈ stepInputs closes (zeroPositionsTable na n) i, p.1 = 0 := by
  intro p hp
  unfold stepInputs at hp
  rcases List.mem_map.1 hp with ⟨cp, hcp, rfl⟩
  rcases cp with ⟨ca, pa⟩
  have hmem : pa ∈ List.replicate na (List.replicate n ((0 : ℚ), (0 : ℚ))) :=
    (List.of_mem_zip hcp).2
  have hpa := List.eq_of_mem_replicate hmem
  subst hpa
  simp [getD_replicate]

theorem eqPnlF_zeroPositions (closes : List (List ℚ)) (na n i : ℕ) :
    eqPnlF closes (zeroPositionsTable na n) i = 0 := by
  cases i with
  | zero => rfl
  | succ j =>
      have step : eqPnlF closes (zeroPositionsTable na n) (j + 1) =
          (pnlCashStep (stepInputs closes (zeroPositionsTable na n) (j + 1))).1 := rfl
      rw [step, pnlCashStep_of_flat _ (stepInputs_flat closes na n (j + 1))]

theorem eqCashF_zeroPositions (closes : List (List ℚ)) (na n : ℕ) (init : ℚ)
    (i : ℕ) : eqCashF closes (zeroPositionsTable na n) init i = init := by
  induction i with
  | zero => rfl
  | succ j ih =>
      have step : eqCashF closes (zeroPositionsTable na n) init (j + 1) =
          eqCashF closes (zeroPositionsTable na n) init j +
            (pnlCashStep (stepInputs closes (zeroPositionsTable na n) (j + 1))).2 := rfl
      rw [step, ih, pnlCashStep_of_flat _ (stepInputs_flat closes na n (j + 1))]
      norm_num

theorem equityTable_cash_zeroPositions (closes : List (List ℚ)) (na n : ℕ)
    (init : ℚ) :
    (equityTable closes (zeroPositionsTable na n) init n).map (fun r => r.1) =
      List.replicate n init := by
  unfold equityTable
  rw [List.map_map]
  have h : ∀ i ∈ List.range n,
      ((fun r : ℚ × ℚ => r.1) ∘ fun i =>
        (eqCashF closes (zeroPositionsTable na n) init i,
         eqPnlF closes (zeroPositionsTable na n) i)) i = (fun _ => init) i := by
    intro i _
    simp [eqCashF_zeroPositions]
  rw [List.map_congr_left h, List.map_const', List.length_range]

theorem equityTable_pnl_zeroPositions (closes : List (List ℚ)) (na n : ℕ)
    (init : ℚ) :
    (equityTable closes (zeroPositionsTable na n) init n).map (fun r => r.2) =
      List.replicate n 0 := by
  unfold equityTable
  rw [List.map_map]
  have h : ∀ i ∈ List.range n,
      ((fun r : ℚ × ℚ => r.2) ∘ fun i =>
        (eqCashF closes (zeroPositionsTable na n) init i,
         eqPnlF closes (zeroPositionsTable na n) i)) i = (fun _ => (0 : ℚ)) i := by
    intro i _
    simp [eqPnlF_zeroPositions]
  rw [List.map_congr_left h, List.map_const', List.length_range]

theorem pctChange_const (n : ℕ) (init : ℚ) (hi : init ≠ 0) :
    pctChange (List.replicate n init) = List.replicate n (some 0) := by
  unfold pctChange
  rw [List.length_replicate]
  have h : ∀ t ∈ List.range n,
      (if t = 0 then some (0 : ℚ)
       else if (List.replicate n init).getD (t - 1) 0 = 0 then none
       else some ((List.replicate n init).getD t 0 /
         (List.replicate n init).getD (t - 1) 0 - 1)) = (fun _ => some (0 : ℚ)) t := by
    intro t htn
    rcases Nat.eq_zero_or_pos t with h0 | h0
    · simp [h0]
    · have ht : t < n := List.mem_range.1 htn
      have ht1 : t - 1 < n := lt_of_le_of_lt (Nat.sub_le t 1) ht
      rw [if_neg (Nat.pos_iff_ne_zero.1 h0), getD_replicate, if_pos ht1,
        getD_replicate, if_pos ht, if_neg hi, div_self hi]
      norm_num
  rw [List.map_congr_left h, List.map_const', List.length_range]

theorem investedMask_zeroPositions (na n m : ℕ) :
    investedMask (zeroPositionsTable na n) m = List.replicate m false := by
  unfold investedMask zeroPositionsTable
  have hrow : ∀ t : ℕ,
      (List.replicate na (List.replicate n ((0 : ℚ), (0 : ℚ)))).any
        (fun a => decide ((a.getD t ((0 : ℚ), (0 : ℚ))).1 ≠ 0)) = false := by
    intro t
    induction na with
    | zero => rfl
    | succ k ih =>
        rw [List.replicate_succ, List.any_cons, ih]
        simp [getD_replicate]
  have h : ∀ t ∈ List.range m,
      (List.replicate na (List.replicate n ((0 : ℚ), (0 : ℚ)))).any
        (fun a => decide ((a.getD t ((0 : ℚ), (0 : ℚ))).1 ≠ 0)) =
        (fun _ => false) t := fun t _ => hrow t
  rw [List.map_congr_left h, List.map_const', List.length_range]

theorem maskList_all_false (l : List (Option ℚ)) (k : ℕ) :
    maskList l (List.replicate k false) = [] := by
  induction l generalizing k with
  | nil => simp [maskList]
  | cons a tl ih =>
      cases k with
      | zero => simp [maskList]
      | succ j =>
          rw [List.replicate_succ]
          have step : maskList (a :: tl) (false :: List.replicate j false) =
              maskList tl (List.replicate j false) := by
            simp [maskList]
          rw [step, ih]

theorem countP_order_replicate (n : ℕ) :
    (List.replicate n ((0 : ℚ), (0 : ℚ))).countP (fun r => decide (r.2 ≠ 0)) = 0 := by
  induction n with
  | zero => rfl
  | succ k ih =>
      rw [List.replicate_succ, List.countP_cons, ih]
      norm_num

theorem meanQ_replicate_zero (n : ℕ) (h : 1 ≤ n) :
    meanQ (List.replicate n (0 : ℚ)) = FV.fv 0 1 := by
  cases n with
  | zero => omega
  | succ m => simp [meanQ, List.replicate_succ, List.sum_replicate]

theorem svarQ_replicate_zero (n : ℕ) : svarQ (List.replicate n (0 : ℚ)) = 0 := by
  simp [svarQ, List.sum_replicate, List.map_replicate]

theorem stdQ_replicate_zero (n : ℕ) :
    stdQ (List.replicate n (0 : ℚ)) = if n ≤ 1 then FV.nanv else FV.fv 1 0 := by
  unfold stdQ
  rw [List.length_replicate, svarQ_replicate_zero]

/-- Claim C8: for every run whose position schedule never trades (the
zero-initialised table, as produced when no entry fires), the simulation and
`Strategy.evaluate` complete without raising, `number_of_trades` is 0,
`win_rate` and `loss_rate` are NaN (not zero), and the zero-variance
denominators make `sharpe_ratio`, `annualized_volatility`, `average_return`
and `average_win` NaN rather than errors. -/
theorem evaluate_never_trades (na n : ℕ) (closes : List (List ℚ)) (init : ℚ)
    (hn : 1 ≤ n) (hi : 0 < init) :
    (evaluate (zeroPositionsTable na n)
        (equityTable closes (zeroPositionsTable na n) init n)
        (pctChange ((equityTable closes (zeroPositionsTable na n) init n).map
          (fun r => r.1)))).ntrades = FV.fv 0 1 ∧
    (evaluate (zeroPositionsTable na n)
        (equityTable closes (zeroPositionsTable na n) init n)
        (pctChange ((equityTable closes (zeroPositionsTable na n) init n).map
          (fun r => r.1)))).winrate = FV.nanv ∧
    (evaluate (zeroPositionsTable na n)
        (equityTable closes (zeroPositionsTable na n) init n)
        (pctChange ((equityTable closes (zeroPositionsTable na n) init n).map
          (fun r => r.1)))).lossrate = FV.nanv ∧
    (evaluate (zeroPositionsTable na n)
        (equityTable closes (zeroPositionsTable na n) init n)
        (pctChange ((equityTable closes (zeroPositionsTable na n) init n).map
          (fun r => r.1)))).sharpe = FV.nanv ∧
    (evaluate (zeroPositionsTable na n)
        (equityTable closes (zeroPositionsTable na n) init n)
        (pctChange ((equityTable closes (zeroPositionsTable na n) init n).map
          (fun r => r.1)))).annvol = FV.nanv ∧
    (evaluate (zeroPositionsTable na n)
        (equityTable closes (zeroPositionsTable na n) init n)
        (pctChange ((equityTable closes (zeroPositionsTable na n) init n).map
          (fun r => r.1)))).avgret = FV.nanv ∧
    (evaluate (zeroPositionsTable na n)
        (equityTable closes (zeroPositionsTable na n) init n)
        (pctChange ((equityTable closes (zeroPositionsTable na n) init n).map
          (fun r => r.1)))).avgwin = FV.nanv := by
  have hlen : (equityTable closes (zeroPositionsTable na n) init n).length = n := by
    simp [equityTable]
  have hret : pctChange ((equityTable closes (zeroPositionsTable na n) init n).map
      (fun r => r.1)) = List.replicate n (some 0) := by
    rw [equityTable_cash_zeroPositions, pctChange_const n init (ne_of_gt hi)]
  refine ⟨?_, ?_, ?_, ?_, ?_, ?_, ?_⟩
  · simp only [evaluate]
    simp [zeroPositionsTable, List.map_replicate, countP_order_replicate,
      List.sum_replicate]
  · simp only [evaluate, hlen, hret, investedMask_zeroPositions, maskList_all_false]
    rfl
  · simp only [evaluate, hlen, hret, investedMask_zeroPositions, maskList_all_false]
    rfl
  · simp only [evaluate, hlen, equityTable_pnl_zeroPositions,
      meanQ_replicate_zero n hn, stdQ_replicate_zero]
    rcases le_or_lt n 1 with h1 | h1
    · rw [if_pos h1]
      rfl
    · rw [if_neg (Nat.not_le_of_lt h1)]
      norm_num [mulF, divF]
  · simp only [evaluate, hlen, hret, investedMask_zeroPositions, maskList_all_false]
    rfl
  · simp only [evaluate, hlen, hret, investedMask_zeroPositions, maskList_all_false]
    rfl
  · simp only [evaluate, hlen, hret, investedMask_zeroPositions, maskList_all_false]
    rfl

/-- Claim C8 (witness): a two-row single-asset zero run with initial cash
100000. -/
theorem evaluate_never_trades_witness :
    (1 ≤ 2 ∧ (0 : ℚ) < 100000) ∧
    ((evaluate (zeroPositionsTable 1 2)
        (equityTable [[10, 11]] (zeroPositionsTable 1 2) 100000 2)
        (pctChange ((equityTable [[10, 11]] (zeroPositionsTable 1 2) 100000 2).map
          (fun r => r.1)))).ntrades = FV.fv 0 1 ∧
    (evaluate (zeroPositionsTable 1 2)
        (equityTable [[10, 11]] (zeroPositionsTable 1 2) 100000 2)
        (pctChange ((equityTable [[10, 11]] (zeroPositionsTable 1 2) 100000 2).map
          (fun r => r.1)))).winrate = FV.nanv ∧
    (evaluate (zeroPositionsTable 1 2)
        (equityTable [[10, 11]] (zeroPositionsTable 1 2) 100000 2)
        (pctChange ((equityTable [[10, 11]] (zeroPositionsTable 1 2) 100000 2).map
          (fun r => r.1)))).lossrate = FV.nanv ∧
    (evaluate (zeroPositionsTable 1 2)
        (equityTable [[10, 11]] (zeroPositionsTable 1 2) 100000 2)
        (pctChange ((equityTable [[10, 11]] (zeroPositionsTable 1 2) 100000 2).map
          (fun r => r.1)))).sharpe = FV.nanv ∧
    (evaluate (zeroPositionsTable 1 2)
        (equityTable [[10, 11]] (zeroPositionsTable 1 2) 100000 2)
        (pctChange ((equityTable [[10, 11]] (zeroPositionsTable 1 2) 100000 2).map
          (fun r => r.1)))).annvol = FV.nanv ∧
    (evaluate (zeroPositionsTable 1 2)
        (equityTable [[10, 11]] (zeroPositionsTable 1 2) 100000 2)
        (pctChange ((equityTable [[10, 11]] (zeroPositionsTable 1 2) 100000 2).map
          (fun r => r.1)))).avgret = FV.nanv ∧
    (evaluate (zeroPositionsTable 1 2)
        (equityTable [[10, 11]] (zeroPositionsTable 1 2) 100000 2)
        (pctChange ((equityTable [[10, 11]] (zeroPositionsTable 1 2) 100000 2).map
          (fun r => r.1)))).avgwin = FV.nanv) :=
  ⟨⟨by norm_num, by norm_num⟩,
    evaluate_never_trades 1 2 [[10, 11]] 100000 (by norm_num) (by norm_num)⟩

theorem smaPosAsset_length (s : ℚ) (pc : List (Option ℤ)) (ex : List ℤ)
    (a : List (ℚ × ℚ)) : (smaPosAsset s pc ex a).length = a.length := by
  simp [smaPosAsset]

theorem smaPosAsset_getD (s : ℚ) (pc : List (Option ℤ)) (ex : List ℤ)
    (a : List (ℚ × ℚ)) (i : ℕ) (h : i < a.length) :
    (smaPosAsset s pc ex a).getD i (0, 0) =
      if 1 ≤ i ∧ i < pc.length then
        smaPosStep s (pc.getD i none) (ex.getD i 0) (a.getD i (0, 0))
      else a.getD i (0, 0) := by
  unfold smaPosAsset
  rw [getD_map_range, if_pos h]

/-- Claim C9 (counterexample): the claim states that re-running signal and
position generation on the same instance yields identical tables.  With
order size 1 and an entry signal at row 1, the first
`SMAStrategy.generate_positions` run turns the zero table into
`[(0,0), (1,1)]` and a second run over the instance state produces
`[(0,0), (2,1)]`: the `+=` on the position cell accumulates across runs. -/
theorem sma_generate_positions_not_idempotent :
    smaPosAsset 1 [none, some 1] [0, 0] (List.replicate 2 (0, 0)) =
      [(0, 0), (1, 1)] ∧
    smaPosAsset 1 [none, some 1] [0, 0]
        (smaPosAsset 1 [none, some 1] [0, 0] (List.replicate 2 (0, 0))) =
      [(0, 0), (2, 1)] ∧
    smaPosAsset 1 [none, some 1] [0, 0]
        (smaPosAsset 1 [none, some 1] [0, 0] (List.replicate 2 (0, 0))) ≠
      smaPosAsset 1 [none, some 1] [0, 0] (List.replicate 2 (0, 0)) := by
  have h1 : smaPosAsset 1 [none, some 1] [0, 0] (List.replicate 2 (0, 0)) =
      [(0, 0), (1, 1)] := by
    norm_num [smaPosAsset, smaPosStep, List.range, List.range.loop]
  have h2 : smaPosAsset 1 [none, some 1] [0, 0]
      (smaPosAsset 1 [none, some 1] [0, 0] (List.replicate 2 (0, 0))) =
      [(0, 0), (2, 1)] := by
    rw [h1]
    norm_num [smaPosAsset, smaPosStep, List.range, List.range.loop]
  refine ⟨h1, h2, ?_⟩
  rw [h2, h1]
  norm_num

/-- Claim C9 (amended): re-running `generate_signals` recomputes every column
from the data alone, but `generate_positions` is not idempotent: on a second
run every row carrying an entry signal (+1 or -1) gains another
`±order_size` on its position cell (its order_size cell is rewritten
unchanged), while rows without an entry signal are left as the first run put
them. -/
theorem sma_generate_positions_rerun (s : ℚ) (pc : List (Option ℤ))
    (ex : List ℤ) (a : List (ℚ × ℚ)) (i : ℕ)
    (h1 : 1 ≤ i) (h2 : i < pc.length) (h3 : i < a.length) :
    (pc.getD i none = some 1 →
      (smaPosAsset s pc ex (smaPosAsset s pc ex a)).getD i (0, 0) =
        (((smaPosAsset s pc ex a).getD i (0, 0)).1 + s, s)) ∧
    (pc.getD i none = some (-1) →
      (smaPosAsset s pc ex (smaPosAsset s pc ex a)).getD i (0, 0) =
        (((smaPosAsset s pc ex a).getD i (0, 0)).1 - s, -s)) ∧
    (pc.getD i none ≠ some 1 → pc.getD i none ≠ some (-1) →
      (smaPosAsset s pc ex (smaPosAsset s pc ex a)).getD i (0, 0) =
        (smaPosAsset s pc ex a).getD i (0, 0)) := by
  have hT2 := smaPosAsset_getD s pc ex (smaPosAsset s pc ex a) i
    (by rw [smaPosAsset_length]; exact h3)
  rw [if_pos ⟨h1, h2⟩] at hT2
  refine ⟨?_, ?_, ?_⟩
  · intro hpc
    rw [hT2, hpc]
    unfold smaPosStep
    norm_num
  · intro hpc
    rw [hT2, hpc]
    unfold smaPosStep
    norm_num
  · intro hq1 hq2
    rw [hT2]
    unfold smaPosStep
    rw [if_neg hq1, if_neg hq2]
    by_cases hex : ex.getD i 0 = 1
    · rw [if_pos hex]
      have hT1 := smaPosAsset_getD s pc ex a i h3
      rw [if_pos ⟨h1, h2⟩] at hT1
      rw [hT1]
      unfold smaPosStep
      rw [if_neg hq1, if_neg hq2, if_pos hex]
    · rw [if_neg hex]

/-- Claim C9 (amended, witness): the rerun characterisation evaluated at the
counterexample input (entry at row 1, order size 1). -/
theorem sma_generate_positions_rerun_witness :
    (1 ≤ 1 ∧ 1 < 2 ∧ 1 < 2) ∧
    ((([none, some 1] : List (Option ℤ)).getD 1 none = some 1 →
      (smaPosAsset 1 [none, some 1] [0, 0]
          (smaPosAsset 1 [none, some 1] [0, 0] (List.replicate 2 (0, 0)))).getD 1 (0, 0) =
        (((smaPosAsset 1 [none, some 1] [0, 0] (List.replicate 2 (0, 0))).getD 1 (0, 0)).1 + 1, 1)) ∧
    (([none, some 1] : List (Option ℤ)).getD 1 none = some (-1) →
      (smaPosAsset 1 [none, some 1] [0, 0]
          (smaPosAsset 1 [none, some 1] [0, 0] (List.replicate 2 (0, 0)))).getD 1 (0, 0) =
        (((smaPosAsset 1 [none, some 1] [0, 0] (List.replicate 2 (0, 0))).getD 1 (0, 0)).1 - 1, -1)) ∧
    (([none, some 1] : List (Option ℤ)).getD 1 none ≠ some 1 →
      ([none, some 1] : List (Option ℤ)).getD 1 none ≠ some (-1) →
      (smaPosAsset 1 [none, some 1] [0, 0]
          (smaPosAsset 1 [none, some 1] [0, 0] (List.replicate 2 (0, 0)))).getD 1 (0, 0) =
        (smaPosAsset 1 [none, some 1] [0, 0] (List.replicate 2 (0, 0))).getD 1 (0, 0))) :=
  ⟨⟨by norm_num, by norm_num, by norm_num⟩,
    sma_generate_positions_rerun 1 [none, some 1] [0, 0]
      (List.replicate 2 (0, 0)) 1 (by norm_num) (by norm_num) (by norm_num)⟩

/-- Claim C10: on every multi-asset input, `SMAStrategy.generate_positions`
writes only the first asset's `position` and `order_size` columns: starting
from the zero-initialised table of `Strategy.__init__`, every other asset's
cells are still exactly `(0.0, 0.0)` at every row after generation, for any
signal columns whatsoever. -/
theorem sma_positions_frame (s : ℚ) (pc : List (Option ℤ)) (ex : List ℤ)
    (na n k t : ℕ) (hk : 1 ≤ k) :
    ((smaGenPositions s pc ex (zeroPositionsTable na n)).getD k []).getD t (0, 0) =
      (0, 0) := by
  unfold zeroPositionsTable
  cases na with
  | zero => simp [smaGenPositions]
  | succ m =>
      rw [List.replicate_succ]
      have hgen : smaGenPositions s pc ex
          (List.replicate n ((0 : ℚ), (0 : ℚ)) ::
            List.replicate m (List.replicate n ((0 : ℚ), (0 : ℚ)))) =
          smaPosAsset s pc ex (List.replicate n ((0 : ℚ), (0 : ℚ))) ::
            List.replicate m (List.replicate n ((0 : ℚ), (0 : ℚ))) := rfl
      rw [hgen]
      cases k with
      | zero => omega
      | succ j =>
          rw [List.getD_cons_succ, getD_replicate]
          split
          · rw [getD_replicate]
            split <;> rfl
          · rfl

/-- Claim C10 (witness): the frame property evaluated for the second asset
of a two-asset, three-row table with an entry signal at row 1. -/
theorem sma_positions_frame_witness :
    1 ≤ 1 ∧
    ((smaGenPositions 1 [none, some 1] [0, 0]
        (zeroPositionsTable 2 3)).getD 1 []).getD 1 (0, 0) = (0, 0) :=
  ⟨by norm_num, sma_positions_frame 1 [none, some 1] [0, 0] 2 3 1 1 (by norm_num)⟩

end AlgoTrading
